import Mathlib

/-!
Verification development for the stringer-vscode i18n helper
(src/start.ts).  Locale documents are JSON trees whose nodes are either
translation strings or nested objects; JavaScript objects are modelled as
association lists that keep insertion order (property update keeps the
position of an existing key, a new key is appended, exactly as JavaScript
object assignment behaves).  Machine integers are modelled as Nat with
explicit `% 2 ^ 32` where 32-bit truncation matters, and the
Math.random() stream of `Math.floor(Math.random() * 10000)` draws is an
explicit parameter `g : Nat -> Fin 10000` consumed at a cursor position.
-/

/-- Locale document tree: every node is a translation string or a nested
object (the data-model invariant of the locale files). -/
inductive Doc where
  | str (s : String)
  | obj (fields : List (String × Doc))
deriving Repr

/-- Whether a node is an object (JavaScript `typeof v === "object"` for
the string-or-object trees handled here). -/
def Doc.isObj : Doc → Bool
  | Doc.str _ => false
  | Doc.obj _ => true

/-- Property read, models `part in node ∧ node[part]` on a JavaScript
object (first binding wins; real objects have no duplicate keys). -/
def lookupField : List (String × Doc) → String → Option Doc
  | [], _ => none
  | (k, v) :: rest, key => if k = key then some v else lookupField rest key

/-- Property write, models `node[part] = v` on a JavaScript object: an
existing key keeps its position, a new key is appended at the end. -/
def setField : List (String × Doc) → String → Doc → List (String × Doc)
  | [], key, v => [(key, v)]
  | (k, w) :: rest, key, v =>
    if k = key then (key, v) :: rest else (k, w) :: setField rest key v

/-- Decimal digit character, as produced by JavaScript number-to-string
conversion for a single digit. -/
def digitChar (d : Nat) : Char :=
  match d with
  | 0 => '0' | 1 => '1' | 2 => '2' | 3 => '3' | 4 => '4'
  | 5 => '5' | 6 => '6' | 7 => '7' | 8 => '8' | _ => '9'

/-- Four-digit zero-padded decimal rendering; models
`n.toString().padStart(4, "0")` for `n < 10000` (src/start.ts line 1352). -/
def pad4 (n : Nat) : String :=
  String.mk [digitChar (n / 1000 % 10), digitChar (n / 100 % 10),
             digitChar (n / 10 % 10), digitChar (n % 10)]

/-- Test for the regex `^\d\x7b4\x7d$` used throughout src/start.ts: the string
is exactly four ASCII decimal digits. -/
def isFourDigit (s : String) : Bool :=
  s.data.length == 4 && s.data.all Char.isDigit

/-- Split a string at every dot; models JavaScript `s.split(".")`
(single-character separator, so a character scan is exact). -/
def splitDotsAux : List Char → List Char → List String
  | [], cur => [String.mk cur.reverse]
  | c :: cs, cur =>
    if c = '.' then String.mk cur.reverse :: splitDotsAux cs []
    else splitDotsAux cs (c :: cur)

/-- Models `keyPath.split(".")`. -/
def splitDots (s : String) : List String :=
  splitDotsAux s.data []

/-- Models `collectAllNumericLeafKeys` (src/start.ts lines 1334-1347): walk
the whole document; a key matching `^\d\x7b4\x7d$` whose value is not an object is
recorded, and every object value is recursed into. -/
def collectAllNumericLeafKeys : List (String × Doc) → List String
  | [] => []
  | (k, Doc.str _) :: rest =>
    (if isFourDigit k then [k] else []) ++ collectAllNumericLeafKeys rest
  | (_, Doc.obj sub) :: rest =>
    collectAllNumericLeafKeys sub ++ collectAllNumericLeafKeys rest

/-- Random phase of `nextGlobalLeafKey` (src/start.ts lines 1351-1356): up
to `tries` draws from the random stream `g` starting at cursor `pos`; the
first draw whose 4-digit rendering is not in `used` is returned together
with the next cursor. -/
def randomTries (g : Nat → Fin 10000) (used : List String) :
    Nat → Nat → Option (String × Nat)
  | _, 0 => none
  | pos, tries + 1 =>
    let k := pad4 (g pos).val
    if used.contains k then randomTries g used (pos + 1) tries
    else some (k, pos + 1)

/-- Deterministic fallback scan of `nextGlobalLeafKey` (src/start.ts lines
1358-1361): the first of 0000-9999 not in `used`. -/
def linearScan (used : List String) : Option String :=
  ((List.range 10000).find? (fun i => !(used.contains (pad4 i)))).map pad4

/-- Models `nextGlobalLeafKey` (src/start.ts lines 1349-1368).  A `none`
result models reaching the final unconditional random-retry loop (lines
1362-1367), which can only be left once a free code exists; every path
that actually returns a key in the source is a `some` here. -/
def nextGlobalLeafKey (g : Nat → Fin 10000) (used : List String) (pos : Nat) :
    Option (String × Nat) :=
  match randomTries g used pos 500 with
  | some r => some r
  | none =>
    match linearScan used with
    | some k => some (k, pos + 500)
    | none => none

/-- Models the demotion walk of `addStringToBaseLanguage` (src/start.ts
lines 1379-1391): descend the prefix segments from the root; a string
value met on the way is lifted into a fresh object under a newly minted
key (which is added to `used`), a missing segment becomes an empty
object.  Returns the rebuilt fields, the grown used-set and the random
cursor; `none` propagates a mint that never returned. -/
def ensureContainers (g : Nat → Fin 10000) :
    List String → List (String × Doc) → List String → Nat →
    Option (List (String × Doc) × List String × Nat)
  | [], fs, used, pos => some (fs, used, pos)
  | p :: rest, fs, used, pos =>
    match lookupField fs p with
    | some (Doc.str prev) =>
      match nextGlobalLeafKey g used pos with
      | none => none
      | some (prevKey, pos1) =>
        match ensureContainers g rest [(prevKey, Doc.str prev)]
            (used ++ [prevKey]) pos1 with
        | none => none
        | some (sub, used2, pos2) => some (setField fs p (Doc.obj sub), used2, pos2)
    | some (Doc.obj sub) =>
      match ensureContainers g rest sub used pos with
      | none => none
      | some (sub2, used2, pos2) => some (setField fs p (Doc.obj sub2), used2, pos2)
    | none =>
      match ensureContainers g rest ([] : List (String × Doc)) used pos with
      | none => none
      | some (sub2, used2, pos2) => some (setField fs p (Doc.obj sub2), used2, pos2)

/-- Models `setDeepValue` (src/start.ts lines 1400-1420): walk the path
segments, replacing an undefined segment by an empty object and a string
segment by an object keeping the old string under the hard-coded key
"0000"; at the last segment additionally bind `leafKey` to `value`. -/
def setDeepValue (fs : List (String × Doc)) (pathParts : List String)
    (leafKey : String) (value : String) : List (String × Doc) :=
  match pathParts with
  | [] => fs
  | [p] =>
    let node := match lookupField fs p with
      | none => ([] : List (String × Doc))
      | some (Doc.str s) => [("0000", Doc.str s)]
      | some (Doc.obj sub) => sub
    setField fs p (Doc.obj (setField node leafKey (Doc.str value)))
  | p :: rest =>
    let node := match lookupField fs p with
      | none => ([] : List (String × Doc))
      | some (Doc.str s) => [("0000", Doc.str s)]
      | some (Doc.obj sub) => sub
    setField fs p (Doc.obj (setDeepValue node rest leafKey value))

/-- Instrumentation of `setDeepValue`: true exactly when its walk meets a
string-valued segment, i.e. when one of the two branches writing the
hard-coded key "0000" (src/start.ts lines 1412 and 1416) executes. -/
def setDeepValueDemotes : List (String × Doc) → List String → Bool
  | _, [] => false
  | fs, p :: rest =>
    match lookupField fs p with
    | some (Doc.str _) => true
    | some (Doc.obj sub) => setDeepValueDemotes sub rest
    | none => setDeepValueDemotes ([] : List (String × Doc)) rest

/-- Models `addStringToBaseLanguage` (src/start.ts lines 1370-1398):
collect the global used-set, run the demotion walk, mint the terminal
leaf key and merge the text via `setDeepValue` on the walked document.
The full key path is the prefix plus the minted leaf key. -/
def addStringToBaseLanguage (g : Nat → Fin 10000)
    (baseLangJson : List (String × Doc)) (pfx : String) (text : String)
    (pos : Nat) : Option (List (String × Doc) × String) :=
  let parts := (splitDots pfx).filter (fun s => decide (s ≠ ""))
  let used := collectAllNumericLeafKeys baseLangJson
  match ensureContainers g parts baseLangJson used pos with
  | none => none
  | some (fs1, used1, pos1) =>
    match nextGlobalLeafKey g used1 pos1 with
    | none => none
    | some (leafKey, _) =>
      some (setDeepValue fs1 parts leafKey text, pfx ++ "." ++ leafKey)

/-- First four-digit string-valued property of an object, in insertion
order; models `leafKeys.find(...)` plus the read `node[four]`
(src/start.ts lines 263-265). -/
def findFourStr : List (String × Doc) → Option String
  | [] => none
  | (k, Doc.str s) :: rest =>
    if isFourDigit k then some s else findFourStr rest
  | (_, Doc.obj _) :: rest => findFourStr rest

/-- Traversal loop of `getValueByPathLoose` (src/start.ts lines 251-269):
descend by literal key while possible; when the terminal segment is
absent from an object node and is not itself a bare 4-digit code, fall
back to the single 4-digit string leaf; after the loop only a string node
is returned. -/
def looseGo : Doc → List String → Option String
  | Doc.str s, [] => some s
  | Doc.obj _, [] => none
  | Doc.str _, _ :: _ => none
  | Doc.obj fs, p :: rest =>
    match lookupField fs p with
    | some child => looseGo child rest
    | none =>
      if rest.isEmpty && !(isFourDigit p) then findFourStr fs else none

/-- Models `getValueByPathLoose` (src/start.ts lines 247-270); the path is
split on dots with empty segments dropped (`split(".").filter(Boolean)`). -/
def getValueByPathLoose (fs : List (String × Doc)) (keyPath : String) :
    Option String :=
  looseGo (Doc.obj fs) ((splitDots keyPath).filter (fun s => decide (s ≠ "")))

/-- True when no segment of the walk over `parts` meets a string value:
the formal reading of a fresh prefix, along which the demotion branch of
`addStringToBaseLanguage` never fires. -/
def noStringOnPath : List (String × Doc) → List String → Bool
  | _, [] => true
  | fs, p :: rest =>
    match lookupField fs p with
    | some (Doc.str _) => false
    | some (Doc.obj sub) => noStringOnPath sub rest
    | none => true

/-- Every segment of `parts` resolves to an object along the document. -/
def pathObjs : List (String × Doc) → List String → Prop
  | _, [] => True
  | fs, p :: rest => ∃ sub, lookupField fs p = some (Doc.obj sub) ∧ pathObjs sub rest

/-- Single-quote character (code 39). -/
def quoteChar : Char := Char.ofNat 39

/-- Single-quote as a string, used when building generated source text. -/
def sglq : String := String.singleton quoteChar

/-- Backtick character (code 96). -/
def backtickChar : Char := Char.ofNat 96

/-- One step of the djb2 hash of `generateKeyHash` (src/start.ts line 328):
`hash = (hash * 33) ^ code` on 32-bit integers.  The signed int32 state of
the source is modelled by its unsigned 32-bit residue; signed and
unsigned residues agree modulo `2 ^ 32`, multiplication respects that
congruence, and xor acts on the shared bit pattern, so the model tracks
the exact bits the source computes. -/
def hashStep (hash : Nat) (code : Nat) : Nat :=
  ((hash * 33) % 2 ^ 32) ^^^ code

/-- Running djb2 value over the UTF-16 code units of the input, starting
from 5381 (src/start.ts lines 326-330); the final `>>> 0` of the source
is the identity on this unsigned representation. -/
def generateKeyHashNum (codes : List Nat) : Nat :=
  codes.foldl hashStep 5381

/-- Lowercase hexadecimal digit, as produced by JavaScript
`toString(16)`. -/
def hexDigitChar (d : Nat) : Char :=
  match d with
  | 0 => '0' | 1 => '1' | 2 => '2' | 3 => '3' | 4 => '4'
  | 5 => '5' | 6 => '6' | 7 => '7' | 8 => '8' | 9 => '9'
  | 10 => 'a' | 11 => 'b' | 12 => 'c' | 13 => 'd' | 14 => 'e' | _ => 'f'

/-- Base-16 rendering of a natural number, most significant digit first;
models `n.toString(16)` for non-negative n. -/
def hexChars (n : Nat) : List Char :=
  if _h : n < 16 then [hexDigitChar n]
  else hexChars (n / 16) ++ [hexDigitChar (n % 16)]
termination_by n
decreasing_by exact Nat.div_lt_self (by omega) (by omega)

/-- Models `padStart(8, "0")` on a digit list. -/
def padStart8 (l : List Char) : List Char :=
  List.replicate (8 - l.length) '0' ++ l

/-- Models `generateKeyHash` (src/start.ts lines 322-332) on the UTF-16
code units of the input string: djb2 value, unsigned, rendered base 16
and left-padded with zeros to width 8. -/
def generateKeyHash (codes : List Nat) : String :=
  String.mk (padStart8 (hexChars (generateKeyHashNum codes)))

/-- Value of a lowercase hexadecimal digit character (independent reading
used to check the rendering). -/
def hexCharVal (c : Char) : Nat :=
  if c.isDigit then c.toNat - 48 else c.toNat - 87

/-- Base-16 value of a digit string, most significant digit first. -/
def hexVal (l : List Char) : Nat :=
  l.foldl (fun a c => 16 * a + hexCharVal c) 0

/-- Lowercase hexadecimal digit predicate. -/
def isLowerHexDigit (c : Char) : Bool :=
  c.isDigit || (decide ('a' ≤ c) && decide (c ≤ 'f'))

/-- Models the `replace(/\\/g, "/")` step of `generateKeyPath`. -/
def backslashToSlash (l : List Char) : List Char :=
  l.map (fun c => if c = '\\' then '/' else c)

/-- Models the `replace(/\.[^/.]+$/, "")` step of `generateKeyPath`: drop
a trailing dot followed by one or more characters that are neither dot
nor slash. -/
def stripExt (l : List Char) : List Char :=
  let rev := l.reverse
  let seg := rev.takeWhile (fun c => !(c = '.' || c = '/'))
  match rev.drop seg.length with
  | '.' :: _ => if seg.length > 0 then (rev.drop (seg.length + 1)).reverse else l
  | _ => l

/-- Models the `split("/").join(".")` step of `generateKeyPath`: with a
single-character separator this replaces every slash by a dot. -/
def slashToDot (l : List Char) : List Char :=
  l.map (fun c => if c = '/' then '.' else c)

/-- Models `generateKeyPath` (src/start.ts lines 1319-1327) applied to the
result of `path.relative(basePath, filePath)`, with the POSIX separator
`/`: reject a bare filename, normalize backslashes, strip the extension,
turn slashes into dots. -/
def generateKeyPath (relativePath : String) : Option String :=
  if !(relativePath.data.contains '/') then none
  else some (String.mk (slashToDot (stripExt (backslashToSlash relativePath.data))))

/-- One extracted dynamic value of the normalizer (the `DynamicValueMatch`
record of src/start.ts); `kind` models the `type` tag and `endIdx` the
`end` field. -/
structure DynamicValueMatch where
  kind : String
  original : String
  paramName : String
  expression : String
  start : Nat
  endIdx : Nat
deriving DecidableEq, Repr

/-- Lookup in the `originalParams` insertion-ordered map. -/
def lookupParamMap : List (String × String) → String → Option String
  | [], _ => none
  | (k, v) :: rest, key => if k = key then some v else lookupParamMap rest key

/-- Insertion into the `originalParams` map: an existing key keeps its
position, a new key is appended (JavaScript Map.set). -/
def setParamMap : List (String × String) → String → String → List (String × String)
  | [], key, v => [(key, v)]
  | (k, w) :: rest, key, v =>
    if k = key then (key, v) :: rest else (k, w) :: setParamMap rest key v

/-- Models `generateTCallExpression` (src/start.ts lines 902-920): a bare
single-argument call without parameters, otherwise a second object
argument using shorthand when the recovered expression equals the
parameter name; `get(...) || param.expression` makes an empty stored
expression fall back too. -/
def generateTCallExpression (keyPath : String)
    (params : List DynamicValueMatch)
    (originalParams : List (String × String)) : String :=
  if params.length = 0 then "t(" ++ sglq ++ keyPath ++ sglq ++ ")"
  else
    let entries := params.map (fun param =>
      let expr := match lookupParamMap originalParams param.paramName with
        | some e => if e = "" then param.expression else e
        | none => param.expression
      if expr = param.paramName then param.paramName
      else param.paramName ++ ": " ++ expr)
    "t(" ++ sglq ++ keyPath ++ sglq ++ ", \x7b " ++ String.intercalate ", " entries ++ " \x7d)"

/-- Models `stripBOM` (src/start.ts lines 1026-1032): drop a leading
U+FEFF. -/
def stripBOM (content : String) : String :=
  match content.data with
  | c :: rest => if c.toNat = 0xFEFF then String.mk rest else content
  | [] => content

/-- Host state touched by the add-key command: the base-language locale
file (existence and content) and the source document text. -/
structure EditorState where
  baseFileExists : Bool
  baseFileContent : String
  sourceText : String
deriving DecidableEq, Repr

/-- Models the file- and document-mutating tail of the
`stringer.addI18nKey` command (src/start.ts lines 2757-2791 and the edit
application that follows).  `parse` models `JSON.parse` (`none` is a
thrown error), `serialize` models `JSON.stringify(-, null, 2)`,
`applyEdit` models the source rewrite of `withEdit`.  A missing base file
is first created with an empty object; a parse failure aborts with the
error message and no further mutation; otherwise the locale write happens
before the source edit.  A `none` from the allocator (the unreachable
unconditional retry loop never returning) leaves both untouched. -/
def addI18nKeyCommand (parse : String → Option (List (String × Doc)))
    (serialize : List (String × Doc) → String)
    (applyEdit : String → String → String)
    (g : Nat → Fin 10000) (pos : Nat)
    (relativePath : String) (selectedString : String)
    (params : List DynamicValueMatch) (originalParams : List (String × String))
    (st : EditorState) : EditorState × Option String :=
  let st1 := if st.baseFileExists then st
             else { st with baseFileExists := true, baseFileContent := "\x7b\x7d" }
  match parse (stripBOM st1.baseFileContent) with
  | none =>
    (st1, some "Base language file has invalid JSON. Please fix it and try again. No changes were made.")
  | some baseJson =>
    match generateKeyPath relativePath with
    | none => (st1, some "Cannot derive key path from file location.")
    | some pfx =>
      match addStringToBaseLanguage g baseJson pfx selectedString pos with
      | none => (st1, none)
      | some (updated, fullKeyPath) =>
        let st2 := { st1 with baseFileContent := serialize updated }
        let expr := generateTCallExpression fullKeyPath params originalParams
        ({ st2 with sourceText := applyEdit st2.sourceText expr }, none)

/-- JavaScript whitespace class `\s` (the code points relevant here). -/
def jsSpace (c : Char) : Bool :=
  c = ' ' || c = '\t' || c = '\n' || c = '\r' || c = '\x0b' || c = '\x0c' ||
  c.toNat = 160

/-- Models JavaScript `String.prototype.trim`: drop whitespace from both
ends. -/
def jsTrim (s : String) : String :=
  String.mk (((s.data.dropWhile jsSpace).reverse.dropWhile jsSpace).reverse)

/-- Match a literal character sequence at the head of the input and
return the remainder. -/
def matchLit : List Char → List Char → Option (List Char)
  | [], l => some l
  | _ :: _, [] => none
  | p :: ps, c :: cs => if c = p then matchLit ps cs else none

/-- Does the predicate hold at some suffix of the input (the regex-engine
scan over every start position). -/
def anySuffix (f : List Char → Bool) : List Char → Bool
  | [] => f []
  | l@(_ :: cs) => f l || anySuffix f cs

/-- Substring containment, models an unanchored literal regex test. -/
def containsSub (pat : List Char) (l : List Char) : Bool :=
  anySuffix (fun t => (matchLit pat t).isSome) l

/-- Does the input start with optional whitespace followed by an opening
parenthesis (the `\s*\(` tail of the formatting-call regexes). -/
def wsThenParen (l : List Char) : Bool :=
  match l.dropWhile jsSpace with
  | '(' :: _ => true
  | _ => false

/-- Unanchored test for a literal followed by `\s*\(`. -/
def hasLitThenParen (pat : List Char) (l : List Char) : Bool :=
  anySuffix (fun t =>
    match matchLit pat t with
    | some rest => wsThenParen rest
    | none => false) l

/-- Models `isNumberFormatting` (src/start.ts lines 576-583): the six
number-formatting call patterns. -/
def isNumberFormatting (expr : String) : Bool :=
  hasLitThenParen ".toFixed".data expr.data ||
  hasLitThenParen ".toLocaleString".data expr.data ||
  hasLitThenParen ".toPrecision".data expr.data ||
  hasLitThenParen "Number".data expr.data ||
  hasLitThenParen "parseFloat".data expr.data ||
  hasLitThenParen "parseInt".data expr.data

/-- Single or double quote (the `['"]` character class). -/
def quoteSD (c : Char) : Bool :=
  c = '"' || c = quoteChar

/-- Anchored test for `['"]word['"]` at the head of the input. -/
def quotedWordAt (w : List Char) (l : List Char) : Bool :=
  match l with
  | c :: rest =>
    quoteSD c &&
      (match matchLit w rest with
       | some (d :: _) => quoteSD d
       | _ => false)
  | [] => false

/-- Models `isCurrencyFormatting` (src/start.ts lines 586-592). -/
def isCurrencyFormatting (expr : String) : Bool :=
  anySuffix (quotedWordAt "currency".data) expr.data ||
  anySuffix (fun t =>
    match matchLit "style:".data t with
    | some rest => quotedWordAt "currency".data (rest.dropWhile jsSpace)
    | none => false) expr.data ||
  containsSub "formatCurrency".data expr.data ||
  anySuffix (fun t =>
    match t with
    | '$' :: rest => (match rest.dropWhile jsSpace with
      | '+' :: _ => true
      | _ => false)
    | _ => false) expr.data ||
  anySuffix (quotedWordAt "USD".data) expr.data ||
  anySuffix (quotedWordAt "EUR".data) expr.data ||
  anySuffix (quotedWordAt "GBP".data) expr.data

/-- Models `isDateFormatting` (src/start.ts lines 595-603). -/
def isDateFormatting (expr : String) : Bool :=
  hasLitThenParen ".toLocaleDateString".data expr.data ||
  hasLitThenParen ".toLocaleTimeString".data expr.data ||
  hasLitThenParen ".toISOString".data expr.data ||
  hasLitThenParen ".toDateString".data expr.data ||
  containsSub "formatDate".data expr.data ||
  hasLitThenParen "new Date".data expr.data ||
  containsSub "dayjs".data expr.data ||
  containsSub "moment".data expr.data ||
  containsSub "date-fns".data expr.data

/-- ASCII identifier start, the class `[A-Za-z_$]`. -/
def isIdStart (c : Char) : Bool :=
  (decide ('A' ≤ c) && decide (c ≤ 'Z')) || (decide ('a' ≤ c) && decide (c ≤ 'z')) ||
  c = '_' || c = '$'

/-- ASCII identifier character, the class `[A-Za-z0-9_$]`. -/
def isIdChar (c : Char) : Bool :=
  isIdStart c || (decide ('0' ≤ c) && decide (c ≤ '9'))

/-- Greedy parse of the `(?:\.[A-Za-z0-9_$]...)*` chain continuation:
each step consumes a dot and an identifier. -/
def chainMore : Nat → List Char → List (List Char)
  | 0, _ => []
  | fuel + 1, l =>
    match l with
    | '.' :: c :: rest =>
      if isIdStart c then
        (c :: rest.takeWhile isIdChar) :: chainMore fuel (rest.dropWhile isIdChar)
      else []
    | _ => []

/-- Anchored parse of the identifier chain regex of `extractParamName`
(src/start.ts line 558): an identifier followed by zero or more
dot-identifier steps; `none` when the input does not start with an
identifier. -/
def chainIdents (l : List Char) : Option (List (List Char)) :=
  match l with
  | c :: rest =>
    if isIdStart c then
      some ((c :: rest.takeWhile isIdChar) :: chainMore rest.length (rest.dropWhile isIdChar))
    else none
  | [] => none

/-- ASCII uppercase test. -/
def isUpperAscii (c : Char) : Bool :=
  decide ('A' ≤ c) && decide (c ≤ 'Z')

/-- ASCII lowercase test. -/
def isLowerAscii (c : Char) : Bool :=
  decide ('a' ≤ c) && decide (c ≤ 'z')

/-- Models the getter regex `^get([A-Z][a-z]+)$` of `extractParamName`
plus the `toLowerCase()` on its capture group. -/
def getterNoun (l : List Char) : Option (List Char) :=
  match l with
  | 'g' :: 'e' :: 't' :: c :: rest =>
    if isUpperAscii c && rest ≠ [] && rest.all isLowerAscii then
      some ((c :: rest).map Char.toLower)
    else none
  | _ => none

/-- First maximal identifier substring of the input, the unanchored
fallback regex `([A-Za-z_$][A-Za-z0-9_$]*)` of `extractParamName`. -/
def firstIdent (l : List Char) : Option (List Char) :=
  match l.dropWhile (fun c => !(isIdStart c)) with
  | c :: rest => some (c :: rest.takeWhile isIdChar)
  | [] => none

/-- Models `extractParamName` (src/start.ts lines 555-573): trim, try the
identifier-chain regex and use its last segment (getter names yield their
lowercased noun), else the first identifier anywhere, else "value". -/
def extractParamName (expr : String) : String :=
  let cleaned := jsTrim expr
  match chainIdents cleaned.data with
  | some ids =>
    let lastPart := (ids.getLastD [])
    match getterNoun lastPart with
    | some noun => String.mk noun
    | none => String.mk lastPart
  | none =>
    match firstIdent cleaned.data with
    | some id => String.mk id
    | none => "value"

/-- Line terminators excluded by the regex `.` metacharacter. -/
def isLineTerm (c : Char) : Bool :=
  c = '\n' || c = '\r' || c.toNat = 0x2028 || c.toNat = 0x2029

/-- Quote character of the concatenation splitter: single quote, double
quote or backtick. -/
def isQuoteChar (c : Char) : Bool :=
  c = '"' || c = quoteChar || c = backtickChar

/-- Test for the regex `^['"`].*['"`]$` (and for the test-equivalent lazy
variant used when extracting literal content): first and last characters
are quotes with no line terminator between them. -/
def matchesQuotedLiteral (s : String) : Bool :=
  s.data.length ≥ 2 && isQuoteChar (s.data.headD ' ') &&
  isQuoteChar (s.data.getLastD ' ') &&
  ((s.data.drop 1).dropLast.all (fun c => !(isLineTerm c)))

/-- Scanner state of the split loop of `parseStringConcatenation`
(src/start.ts lines 682-709). -/
structure SplitState where
  parts : List String
  current : List Char
  inString : Option Char
  depth : Int
deriving Repr

/-- One character step of the split loop, with `prev` the previous
character (escape check `prev !== "\\"`); the branch order matches the
source exactly. -/
def concatSplitStep (prev : Option Char) (ch : Char) (st : SplitState) : SplitState :=
  if st.inString.isNone && isQuoteChar ch then
    { st with inString := some ch, current := st.current ++ [ch] }
  else if st.inString = some ch && prev ≠ some '\\' then
    { st with inString := none, current := st.current ++ [ch] }
  else if st.inString.isNone && ch = '(' then
    { st with depth := st.depth + 1, current := st.current ++ [ch] }
  else if st.inString.isNone && ch = ')' then
    { st with depth := st.depth - 1, current := st.current ++ [ch] }
  else if st.inString.isNone && st.depth = 0 && ch = '+' then
    { st with parts := st.parts ++ [jsTrim (String.mk st.current)], current := [] }
  else
    { st with current := st.current ++ [ch] }

/-- Run the split loop over the whole text. -/
def runConcatSplit : List Char → Option Char → SplitState → SplitState
  | [], _, st => st
  | c :: cs, prev, st => runConcatSplit cs (some c) (concatSplitStep prev c st)

/-- Normalization result record (the `AdvancedNormalizationResult` of
src/start.ts lines 547-552); the Map is an insertion-ordered association
list. -/
structure AdvancedNormalizationResult where
  normalizedText : String
  params : List DynamicValueMatch
  originalParams : List (String × String)
  hasAdvancedPatterns : Bool
deriving DecidableEq, Repr

/-- Collision loop of the unique-parameter-name rule (src/start.ts lines
743-747): while the map holds the candidate bound to a different
expression, append an incrementing counter.  The fuel of one more than
the map size makes the loop total; it is never exhausted because the
candidates are pairwise distinct. -/
def uniquifyGo (origs : List (String × String)) (base expr : String) :
    Nat → String → Nat → String
  | 0, cand, _ => cand
  | fuel + 1, cand, counter =>
    match lookupParamMap origs cand with
    | some e => if e ≠ expr then uniquifyGo origs base expr fuel (base ++ Nat.repr counter) (counter + 1)
                else cand
    | none => cand

/-- Unique parameter name for a base name and its originating expression. -/
def uniquify (origs : List (String × String)) (base expr : String) : String :=
  uniquifyGo origs base expr (origs.length + 1) base 1

/-- Build phase of `parseStringConcatenation` (src/start.ts lines
731-774): quoted parts contribute their inner content, non-empty
non-quoted parts become classified parameters and a brace placeholder. -/
def buildConcat : List String → List Char → List DynamicValueMatch →
    List (String × String) → Bool → Nat →
    List Char × List DynamicValueMatch × List (String × String) × Bool
  | [], norm, params, origs, hasAdv, _ => (norm, params, origs, hasAdv)
  | part :: restParts, norm, params, origs, hasAdv, paramIndex =>
    let trimmed := jsTrim part
    if matchesQuotedLiteral trimmed then
      buildConcat restParts (norm ++ (trimmed.data.drop 1).dropLast) params origs hasAdv paramIndex
    else if trimmed ≠ "" then
      let base := extractParamName trimmed
      let uniqueName := uniquify origs base trimmed
      let kindAdv : String × Bool :=
        if isNumberFormatting trimmed then ("number", true)
        else if isCurrencyFormatting trimmed then ("currency", true)
        else if isDateFormatting trimmed then ("date", true)
        else ("concat", hasAdv)
      let param : DynamicValueMatch :=
        { kind := kindAdv.1, original := trimmed, paramName := uniqueName,
          expression := trimmed, start := paramIndex,
          endIdx := paramIndex + trimmed.data.length }
      buildConcat restParts (norm ++ ("\x7b".data ++ uniqueName.data ++ "\x7d".data))
        (params ++ [param]) (setParamMap origs uniqueName trimmed) kindAdv.2
        (paramIndex + 1)
    else
      buildConcat restParts norm params origs hasAdv paramIndex

/-- Models `parseStringConcatenation` (src/start.ts lines 672-782): split
on top-level plus signs outside strings and parentheses, require at least
two parts with at least one quoted literal and one identifier-headed
part, then assemble the normalized text and parameter list. -/
def parseStringConcatenation (text : String) : Option AdvancedNormalizationResult :=
  if !(text.data.contains '+') then none
  else
    let st := runConcatSplit text.data none ⟨[], [], none, 0⟩
    let parts := if jsTrim (String.mk st.current) ≠ ""
      then st.parts ++ [jsTrim (String.mk st.current)]
      else st.parts
    if parts.length < 2 then none
    else
      let hasStringLiteral := parts.any matchesQuotedLiteral
      let hasVariable := parts.any (fun p =>
        !(matchesQuotedLiteral p) &&
          (match p.data with
           | c :: _ => isIdStart c
           | [] => false))
      if !hasStringLiteral || !hasVariable then none
      else
        let r := buildConcat parts [] [] [] false 0
        some { normalizedText := jsTrim (String.mk r.1),
               params := r.2.1,
               originalParams := r.2.2.1,
               hasAdvancedPatterns := r.2.2.2 || r.2.1.length > 0 }

theorem lookupField_setField_self (fs : List (String × Doc)) (k : String) (v : Doc) :
    lookupField (setField fs k v) k = some v := by
  induction fs with
  | nil => simp [setField, lookupField]
  | cons head rest ih =>
    obtain ⟨k0, v0⟩ := head
    by_cases h : k0 = k
    · simp [setField, h, lookupField]
    · simp [setField, h, lookupField, ih]

theorem lookupField_setField_ne (fs : List (String × Doc)) (k q : String) (v : Doc)
    (hne : k ≠ q) : lookupField (setField fs k v) q = lookupField fs q := by
  induction fs with
  | nil => simp [setField, lookupField, hne]
  | cons head rest ih =>
    obtain ⟨k0, v0⟩ := head
    by_cases h : k0 = k
    · subst h; simp [setField, lookupField, hne]
    · simp [setField, h, lookupField, ih]

theorem digitChar_isDigit (d : Nat) : (digitChar d).isDigit = true := by
  rcases d with _|_|_|_|_|_|_|_|_|d <;> rfl

theorem digitChar_ne_dot (d : Nat) : digitChar d ≠ '.' := by
  intro h
  have hd := digitChar_isDigit d
  rw [h] at hd
  exact absurd hd (by decide)

theorem digitChar_inj {a b : Nat} (ha : a < 10) (hb : b < 10)
    (h : digitChar a = digitChar b) : a = b := by
  interval_cases a <;> interval_cases b <;> revert h <;> decide

theorem isFourDigit_pad4 (n : Nat) : isFourDigit (pad4 n) = true := by
  simp [isFourDigit, pad4, digitChar_isDigit]

theorem pad4_ne_empty (n : Nat) : pad4 n ≠ "" := by
  intro h
  have := congrArg String.data h
  simp [pad4] at this

theorem pad4_no_dot (n : Nat) : ∀ c ∈ (pad4 n).data, c ≠ '.' := by
  intro c hc
  simp [pad4] at hc
  rcases hc with h | h | h | h <;> subst h <;> exact digitChar_ne_dot _

theorem pad4_inj {m n : Nat} (hm : m < 10000) (hn : n < 10000)
    (h : pad4 m = pad4 n) : m = n := by
  have hd := congrArg String.data h
  simp [pad4] at hd
  obtain ⟨h1, h2, h3, h4⟩ := hd
  have e1 := digitChar_inj (Nat.mod_lt _ (by omega)) (Nat.mod_lt _ (by omega)) h1
  have e2 := digitChar_inj (Nat.mod_lt _ (by omega)) (Nat.mod_lt _ (by omega)) h2
  have e3 := digitChar_inj (Nat.mod_lt _ (by omega)) (Nat.mod_lt _ (by omega)) h3
  have e4 := digitChar_inj (Nat.mod_lt _ (by omega)) (Nat.mod_lt _ (by omega)) h4
  omega

theorem string_data_append (a b : String) : (a ++ b).data = a.data ++ b.data := rfl

theorem string_mk_data (s : String) : String.mk s.data = s := rfl

theorem splitDotsAux_append (l1 l2 : List Char) :
    ∀ cur, splitDotsAux (l1 ++ '.' :: l2) cur = splitDotsAux l1 cur ++ splitDotsAux l2 [] := by
  induction l1 with
  | nil => intro cur; simp [splitDotsAux]
  | cons c cs ih =>
    intro cur
    by_cases hc : c = '.'
    · subst hc; simp [splitDotsAux, ih]
    · simp [splitDotsAux, hc, ih]

theorem splitDotsAux_no_dot (l : List Char) :
    ∀ cur, (∀ c ∈ l, c ≠ '.') → splitDotsAux l cur = [String.mk (cur.reverse ++ l)] := by
  induction l with
  | nil => intro cur _; simp [splitDotsAux]
  | cons c cs ih =>
    intro cur h
    have hc : c ≠ '.' := h c (by simp)
    have hcs : ∀ x ∈ cs, x ≠ '.' := fun x hx => h x (by simp [hx])
    simp [splitDotsAux, hc, ih (c :: cur) hcs]

theorem splitDots_pad4 (n : Nat) : splitDots (pad4 n) = [pad4 n] := by
  unfold splitDots
  rw [splitDotsAux_no_dot _ _ (pad4_no_dot n)]
  simp [string_mk_data]

theorem splitParts_full (pfx : String) (n : Nat) :
    (splitDots (pfx ++ "." ++ pad4 n)).filter (fun s => decide (s ≠ "")) =
      (splitDots pfx).filter (fun s => decide (s ≠ "")) ++ [pad4 n] := by
  have hdata : (pfx ++ "." ++ pad4 n).data = pfx.data ++ '.' :: (pad4 n).data := by
    rw [string_data_append, string_data_append]
    simp
  unfold splitDots
  rw [hdata, splitDotsAux_append]
  rw [List.filter_append]
  have : splitDotsAux (pad4 n).data [] = [pad4 n] := by
    rw [splitDotsAux_no_dot _ _ (pad4_no_dot n)]
    simp [string_mk_data]
  rw [this]
  simp [pad4_ne_empty n]

theorem randomTries_fresh (g : Nat → Fin 10000) (used : List String) :
    ∀ fuel pos k q, randomTries g used pos fuel = some (k, q) →
      used.contains k = false ∧ ∃ n, n < 10000 ∧ k = pad4 n := by
  intro fuel
  induction fuel with
  | zero => intro pos k q h; simp [randomTries] at h
  | succ m ih =>
    intro pos k q h
    simp only [randomTries] at h
    cases hc : used.contains (pad4 (g pos).val) with
    | true => rw [hc] at h; simp at h; exact ih _ _ _ h
    | false =>
      rw [hc] at h
      simp at h
      obtain ⟨rfl, rfl⟩ := h
      exact ⟨hc, (g pos).val, (g pos).isLt, rfl⟩

theorem linearScan_fresh (used : List String) (k : String)
    (h : linearScan used = some k) :
    used.contains k = false ∧ ∃ n, n < 10000 ∧ k = pad4 n := by
  unfold linearScan at h
  cases hf : (List.range 10000).find? (fun i => !(used.contains (pad4 i))) with
  | none => rw [hf] at h; simp at h
  | some i =>
    rw [hf] at h
    simp at h
    subst h
    have hp := List.find?_some hf
    simp at hp
    have hmem := List.mem_of_find?_eq_some hf
    exact ⟨by simpa using hp, i, List.mem_range.mp hmem, rfl⟩

theorem linearScan_of_free (used : List String)
    (hfree : ∃ n, n < 10000 ∧ used.contains (pad4 n) = false) :
    ∃ k, linearScan used = some k := by
  obtain ⟨n, hn, hc⟩ := hfree
  unfold linearScan
  cases hf : (List.range 10000).find? (fun i => !(used.contains (pad4 i))) with
  | some i => exact ⟨pad4 i, by simp⟩
  | none =>
    exfalso
    have hmem := List.find?_eq_none.mp hf n (List.mem_range.mpr hn)
    simp at hmem
    have hnot : pad4 n ∉ used := by simpa using hc
    exact hnot hmem

theorem nextGlobalLeafKey_fresh (g : Nat → Fin 10000) (used : List String)
    (pos : Nat) (k : String) (q : Nat)
    (h : nextGlobalLeafKey g used pos = some (k, q)) :
    used.contains k = false ∧ ∃ n, n < 10000 ∧ k = pad4 n := by
  unfold nextGlobalLeafKey at h
  cases hr : randomTries g used pos 500 with
  | some r =>
    rw [hr] at h
    simp at h
    obtain ⟨rfl, rfl⟩ := h
    exact randomTries_fresh g used 500 pos _ _ hr
  | none =>
    rw [hr] at h
    cases hl : linearScan used with
    | none => rw [hl] at h; simp at h
    | some k2 =>
      rw [hl] at h
      simp at h
      obtain ⟨rfl, rfl⟩ := h
      exact linearScan_fresh used _ hl

theorem nextGlobalLeafKey_some_of_free (g : Nat → Fin 10000) (used : List String)
    (pos : Nat) (hfree : ∃ n, n < 10000 ∧ used.contains (pad4 n) = false) :
    ∃ k q, nextGlobalLeafKey g used pos = some (k, q) := by
  unfold nextGlobalLeafKey
  cases hr : randomTries g used pos 500 with
  | some r => exact ⟨r.1, r.2, by simp⟩
  | none =>
    obtain ⟨k, hk⟩ := linearScan_of_free used hfree
    exact ⟨k, pos + 500, by rw [hk]⟩

theorem exists_free_of_count (used : List String)
    (h : used.dedup.length < 10000) :
    ∃ n, n < 10000 ∧ used.contains (pad4 n) = false := by
  by_contra hno
  push_neg at hno
  have hsub : (Finset.range 10000).image pad4 ⊆ used.toFinset := by
    intro k hk
    simp only [Finset.mem_image, Finset.mem_range] at hk
    obtain ⟨n, hn, rfl⟩ := hk
    have hc := hno n hn
    have : used.contains (pad4 n) = true := by
      cases hcc : used.contains (pad4 n) with
      | true => rfl
      | false => exact absurd hcc hc
    rw [List.mem_toFinset]
    simpa using this
  have hcard := Finset.card_le_card hsub
  rw [Finset.card_image_of_injOn
    (fun a ha b hb hab => pad4_inj (Finset.mem_range.mp ha) (Finset.mem_range.mp hb) hab)] at hcard
  rw [Finset.card_range, List.card_toFinset] at hcard
  omega

theorem pathObjs_nil (fs : List (String × Doc)) : pathObjs fs [] := by
  simp [pathObjs]

theorem noStringOnPath_nil_fields : ∀ rest, noStringOnPath [] rest = true := by
  intro rest
  cases rest with
  | nil => rfl
  | cons p r => simp [noStringOnPath, lookupField]

theorem ensureContainers_pathObjs (g : Nat → Fin 10000) :
    ∀ parts fs used pos fs1 used1 pos1,
      ensureContainers g parts fs used pos = some (fs1, used1, pos1) →
      pathObjs fs1 parts := by
  intro parts
  induction parts with
  | nil =>
    intro fs used pos fs1 used1 pos1 h
    exact pathObjs_nil fs1
  | cons p rest ih =>
    intro fs used pos fs1 used1 pos1 h
    cases hl : lookupField fs p with
    | none =>
      simp only [ensureContainers, hl] at h
      cases hr : ensureContainers g rest ([] : List (String × Doc)) used pos with
      | none => rw [hr] at h; exact absurd h (by simp)
      | some t =>
        obtain ⟨sub2, used2, pos2⟩ := t
        rw [hr] at h
        simp at h
        obtain ⟨rfl, rfl, rfl⟩ := h
        exact ⟨sub2, lookupField_setField_self fs p _, ih _ _ _ _ _ _ hr⟩
    | some v =>
      cases v with
      | obj sub =>
        simp only [ensureContainers, hl] at h
        cases hr : ensureContainers g rest sub used pos with
        | none => rw [hr] at h; exact absurd h (by simp)
        | some t =>
          obtain ⟨sub2, used2, pos2⟩ := t
          rw [hr] at h
          simp at h
          obtain ⟨rfl, rfl, rfl⟩ := h
          exact ⟨sub2, lookupField_setField_self fs p _, ih _ _ _ _ _ _ hr⟩
      | str prev =>
        simp only [ensureContainers, hl] at h
        cases hm : nextGlobalLeafKey g used pos with
        | none => rw [hm] at h; exact absurd h (by simp)
        | some pk =>
          obtain ⟨prevKey, pos2⟩ := pk
          rw [hm] at h
          simp only [] at h
          cases hr : ensureContainers g rest [(prevKey, Doc.str prev)]
              (used ++ [prevKey]) pos2 with
          | none => rw [hr] at h; exact absurd h (by simp)
          | some t =>
            obtain ⟨sub2, used2, pos3⟩ := t
            rw [hr] at h
            simp at h
            obtain ⟨rfl, rfl, rfl⟩ := h
            exact ⟨sub2, lookupField_setField_self fs p _, ih _ _ _ _ _ _ hr⟩

theorem ensureContainers_noString (g : Nat → Fin 10000) :
    ∀ parts fs used pos, noStringOnPath fs parts = true →
      ∃ fs1, ensureContainers g parts fs used pos = some (fs1, used, pos) := by
  intro parts
  induction parts with
  | nil => intro fs used pos _; exact ⟨fs, rfl⟩
  | cons p rest ih =>
    intro fs used pos h
    cases hl : lookupField fs p with
    | none =>
      obtain ⟨fs2, hfs2⟩ := ih ([] : List (String × Doc)) used pos (noStringOnPath_nil_fields rest)
      exact ⟨setField fs p (Doc.obj fs2), by simp only [ensureContainers, hl, hfs2]⟩
    | some v =>
      cases v with
      | str s =>
        simp only [noStringOnPath, hl] at h
        exact absurd h (by simp)
      | obj sub =>
        simp only [noStringOnPath, hl] at h
        obtain ⟨fs2, hfs2⟩ := ih sub used pos h
        exact ⟨setField fs p (Doc.obj fs2), by simp only [ensureContainers, hl, hfs2]⟩

theorem setDeepValueDemotes_of_pathObjs :
    ∀ parts fs, pathObjs fs parts → setDeepValueDemotes fs parts = false := by
  intro parts
  induction parts with
  | nil => intro fs _; rfl
  | cons p rest ih =>
    intro fs h
    obtain ⟨sub, hl, hrest⟩ := h
    simp only [setDeepValueDemotes, hl]
    exact ih sub hrest

theorem looseGo_obj_cons (fs : List (String × Doc)) (p : String)
    (rest : List String) (child : Doc) (h : lookupField fs p = some child) :
    looseGo (Doc.obj fs) (p :: rest) = looseGo child rest := by
  simp [looseGo, h]

theorem looseGo_setDeep :
    ∀ parts fs (k v : String), parts ≠ [] → pathObjs fs parts →
      looseGo (Doc.obj (setDeepValue fs parts k v)) (parts ++ [k]) = some v := by
  intro parts
  induction parts with
  | nil => intro fs k v hne _; exact absurd rfl hne
  | cons p rest ih =>
    intro fs k v _ hobjs
    obtain ⟨sub, hl, hrest⟩ := hobjs
    cases rest with
    | nil =>
      simp only [setDeepValue, hl, List.cons_append, List.nil_append]
      simp only [looseGo, lookupField_setField_self]
    | cons q rest2 =>
      have hne2 : q :: rest2 ≠ [] := by simp
      simp only [setDeepValue, hl, List.cons_append]
      rw [looseGo_obj_cons _ _ _ _ (lookupField_setField_self fs p _)]
      have hr := ih sub k v hne2 hrest
      simpa using hr

/-- Stream of draws used by concrete witnesses: the cursor modulo 10000. -/
def gW : Nat → Fin 10000 := fun n => ⟨n % 10000, Nat.mod_lt _ (by norm_num)⟩

/-- Claim C9: for every used-set missing at least one of the 10000
four-digit codes, `nextGlobalLeafKey` returns a code outside the set for
every possible random stream and cursor; the `some` result means the 500
random draws or the deterministic linear scan already produced the key,
so the final unconditional random-retry loop is never entered. -/
theorem c9_nextGlobalLeafKey_terminates (g : Nat → Fin 10000) (pos : Nat)
    (used : List String)
    (hfree : ∃ n, n < 10000 ∧ used.contains (pad4 n) = false) :
    ∃ k q, nextGlobalLeafKey g used pos = some (k, q) ∧ used.contains k = false := by
  obtain ⟨k, q, hk⟩ := nextGlobalLeafKey_some_of_free g used pos hfree
  exact ⟨k, q, hk, (nextGlobalLeafKey_fresh g used pos k q hk).1⟩

/-- Witness for C9 at a concrete colliding stream and one used code. -/
theorem c9_nextGlobalLeafKey_terminates_witness :
    ∃ k q, nextGlobalLeafKey (fun _ => (⟨0, by norm_num⟩ : Fin 10000)) ["0000"] 0 = some (k, q) ∧
      (["0000"] : List String).contains k = false :=
  c9_nextGlobalLeafKey_terminates (fun _ => ⟨0, by norm_num⟩) 0 ["0000"]
    ⟨1, by norm_num, by decide⟩

/-- Claim C1: on a document using fewer than 10000 distinct four-digit
leaf ids, allocation along a fresh prefix (one whose walk meets no
existing string node, so the demotion branch never fires) succeeds and
mints a terminal leaf key distinct from every four-digit numeric leaf key
present anywhere in the document before the call. -/
theorem c1_fresh_prefix_no_reuse (g : Nat → Fin 10000) (pos : Nat)
    (fs : List (String × Doc)) (pfx text : String)
    (hfresh : noStringOnPath fs ((splitDots pfx).filter (fun s => decide (s ≠ ""))) = true)
    (hcount : (collectAllNumericLeafKeys fs).dedup.length < 10000) :
    ∃ fs2 k, addStringToBaseLanguage g fs pfx text pos = some (fs2, pfx ++ "." ++ k) ∧
      (collectAllNumericLeafKeys fs).contains k = false := by
  obtain ⟨fs1, h1⟩ := ensureContainers_noString g
    ((splitDots pfx).filter (fun s => decide (s ≠ ""))) fs
    (collectAllNumericLeafKeys fs) pos hfresh
  obtain ⟨k, q, hk⟩ := nextGlobalLeafKey_some_of_free g (collectAllNumericLeafKeys fs) pos
    (exists_free_of_count _ hcount)
  have hkfresh := (nextGlobalLeafKey_fresh g _ pos k q hk).1
  refine ⟨setDeepValue fs1 ((splitDots pfx).filter (fun s => decide (s ≠ ""))) k text, k, ?_, hkfresh⟩
  simp only [addStringToBaseLanguage, h1, hk]

/-- Witness for C1 on a small document and the fresh prefix x.y. -/
theorem c1_fresh_prefix_no_reuse_witness :
    ∃ fs2 k, addStringToBaseLanguage gW [("x", Doc.obj [("0007", Doc.str "hi")])] "x.y" "t" 0
        = some (fs2, "x.y" ++ "." ++ k) ∧
      (collectAllNumericLeafKeys [("x", Doc.obj [("0007", Doc.str "hi")])]).contains k = false :=
  c1_fresh_prefix_no_reuse gW 0 [("x", Doc.obj [("0007", Doc.str "hi")])] "x.y" "t"
    (by decide)
    (by
      have h : collectAllNumericLeafKeys [("x", Doc.obj [("0007", Doc.str "hi")])] = ["0007"] := by
        simp [collectAllNumericLeafKeys, show isFourDigit "0007" = true from rfl]
      rw [h]
      simp)

/-- Claim C2: whenever the allocator returns an updated document and a
full key path, looking that path up with the loose resolver immediately
afterwards yields exactly the inserted text (documents are string-or-
object trees by construction; the hypotheses mirror the claim: a prefix
with at least one non-empty segment and fewer than 10000 distinct leaf
ids in use). -/
theorem c2_roundtrip_resolution (g : Nat → Fin 10000) (pos : Nat)
    (fs fs2 : List (String × Doc)) (pfx text fullKeyPath : String)
    (hne : (splitDots pfx).filter (fun s => decide (s ≠ "")) ≠ [])
    (hcount : (collectAllNumericLeafKeys fs).dedup.length < 10000)
    (hrun : addStringToBaseLanguage g fs pfx text pos = some (fs2, fullKeyPath)) :
    getValueByPathLoose fs2 fullKeyPath = some text := by
  cases h1 : ensureContainers g ((splitDots pfx).filter (fun s => decide (s ≠ ""))) fs
      (collectAllNumericLeafKeys fs) pos with
  | none =>
    simp only [addStringToBaseLanguage, h1] at hrun
    exact Option.noConfusion hrun
  | some t1 =>
    obtain ⟨fs1, used1, pos1⟩ := t1
    cases h2 : nextGlobalLeafKey g used1 pos1 with
    | none =>
      simp only [addStringToBaseLanguage, h1, h2] at hrun
      exact Option.noConfusion hrun
    | some t2 =>
      obtain ⟨k, q⟩ := t2
      simp only [addStringToBaseLanguage, h1, h2, Option.some.injEq, Prod.mk.injEq] at hrun
      obtain ⟨rfl, rfl⟩ := hrun
      obtain ⟨n, hn, rfl⟩ := (nextGlobalLeafKey_fresh g used1 pos1 k q h2).2
      have hobjs := ensureContainers_pathObjs g _ fs _ pos fs1 used1 pos1 h1
      unfold getValueByPathLoose
      rw [splitParts_full pfx n]
      exact looseGo_setDeep _ fs1 (pad4 n) text hne hobjs

/-- Witness for C2: insert Hello under greet in the empty document and
resolve the returned path. -/
theorem c2_roundtrip_resolution_witness :
    getValueByPathLoose [("greet", Doc.obj [("0000", Doc.str "Hello")])] "greet.0000"
      = some "Hello" :=
  c2_roundtrip_resolution gW 0 [] [("greet", Doc.obj [("0000", Doc.str "Hello")])]
    "greet" "Hello" "greet.0000" (by decide)
    (by
      have h : collectAllNumericLeafKeys [] = [] := by simp [collectAllNumericLeafKeys]
      rw [h]
      simp)
    (by
      have h : collectAllNumericLeafKeys [] = [] := by simp [collectAllNumericLeafKeys]
      simp only [addStringToBaseLanguage, h]
      rfl)

/-- Claim C10: after the demotion walk of `addStringToBaseLanguage`
succeeds, every node along the prefix path of the walked document is an
object, so the traversal of `setDeepValue` over the same path meets no
string value and its two branches writing the hard-coded key "0000" are
unreachable. -/
theorem c10_hardcoded_demotion_unreachable (g : Nat → Fin 10000)
    (parts : List String) (fs fs1 : List (String × Doc)) (used used1 : List String)
    (pos pos1 : Nat)
    (hrun : ensureContainers g parts fs used pos = some (fs1, used1, pos1)) :
    setDeepValueDemotes fs1 parts = false :=
  setDeepValueDemotes_of_pathObjs parts fs1
    (ensureContainers_pathObjs g parts fs used pos fs1 used1 pos1 hrun)

/-- Witness for C10 on a walk that demotes the string at a into an
object before `setDeepValue` would run. -/
theorem c10_hardcoded_demotion_unreachable_witness :
    setDeepValueDemotes [("a", Doc.obj [("0000", Doc.str "x")])] ["a"] = false :=
  c10_hardcoded_demotion_unreachable gW ["a"] [("a", Doc.str "x")]
    [("a", Doc.obj [("0000", Doc.str "x")])] [] ["0000"] 0 1 (by rfl)

/-- Claim C3: calling the allocator with prefix a.b and text new on a
document whose a.b holds the string old turns a.b into an object holding
old and new as sibling string leaves under two distinct four-digit keys,
and leaves every other key of the root and of node a unchanged. -/
theorem c3_demotion_preserves_data (g : Nat → Fin 10000) (pos : Nat)
    (fs A fs2 : List (String × Doc)) (path : String)
    (hA : lookupField fs "a" = some (Doc.obj A))
    (hb : lookupField A "b" = some (Doc.str "old"))
    (hrun : addStringToBaseLanguage g fs "a.b" "new" pos = some (fs2, path)) :
    ∃ A2 pk lk,
      lookupField fs2 "a" = some (Doc.obj A2) ∧
      lookupField A2 "b" = some (Doc.obj [(pk, Doc.str "old"), (lk, Doc.str "new")]) ∧
      pk ≠ lk ∧ isFourDigit pk = true ∧ isFourDigit lk = true ∧
      (∀ q, q ≠ "a" → lookupField fs2 q = lookupField fs q) ∧
      (∀ q, q ≠ "b" → lookupField A2 q = lookupField A q) := by
  have hparts : (splitDots "a.b").filter (fun s => decide (s ≠ "")) = ["a", "b"] := rfl
  simp only [addStringToBaseLanguage] at hrun
  rw [hparts] at hrun
  cases hm1 : nextGlobalLeafKey g (collectAllNumericLeafKeys fs) pos with
  | none =>
    simp only [ensureContainers, hA, hb, hm1] at hrun
    exact Option.noConfusion hrun
  | some t1 =>
    obtain ⟨pk, pos2⟩ := t1
    cases hm2 : nextGlobalLeafKey g (collectAllNumericLeafKeys fs ++ [pk]) pos2 with
    | none =>
      simp only [ensureContainers, hA, hb, hm1, hm2] at hrun
      exact Option.noConfusion hrun
    | some t2 =>
      obtain ⟨lk, q2⟩ := t2
      have hlkfresh := (nextGlobalLeafKey_fresh g _ pos2 lk q2 hm2).1
      have hne : pk ≠ lk := by
        intro e
        subst e
        simp at hlkfresh
      have hpk4 : isFourDigit pk = true := by
        obtain ⟨n, _, rfl⟩ := (nextGlobalLeafKey_fresh g _ pos _ _ hm1).2
        exact isFourDigit_pad4 n
      have hlk4 : isFourDigit lk = true := by
        obtain ⟨n, _, rfl⟩ := (nextGlobalLeafKey_fresh g _ pos2 _ _ hm2).2
        exact isFourDigit_pad4 n
      simp only [ensureContainers, hA, hb, hm1, hm2, setDeepValue,
        lookupField_setField_self, Option.some.injEq, Prod.mk.injEq] at hrun
      obtain ⟨hfs2, _⟩ := hrun
      rw [← hfs2]
      refine ⟨setField (setField A "b" (Doc.obj [(pk, Doc.str "old")])) "b"
          (Doc.obj (setField [(pk, Doc.str "old")] lk (Doc.str "new"))), pk, lk,
        lookupField_setField_self _ _ _, ?_, hne, hpk4, hlk4, ?_, ?_⟩
      · rw [lookupField_setField_self]
        simp [setField, hne]
      · intro q hq
        rw [lookupField_setField_ne _ "a" q _ (Ne.symm hq)]
        exact lookupField_setField_ne _ "a" q _ (Ne.symm hq)
      · intro q hq
        rw [lookupField_setField_ne _ "b" q _ (Ne.symm hq)]
        exact lookupField_setField_ne _ "b" q _ (Ne.symm hq)

theorem addStringToBaseLanguage_eq (g : Nat → Fin 10000)
    (fs : List (String × Doc)) (pfx text : String) (pos : Nat)
    (parts used : List String)
    (hp : (splitDots pfx).filter (fun s => decide (s ≠ "")) = parts)
    (hu : collectAllNumericLeafKeys fs = used)
    (fs1 : List (String × Doc)) (used1 : List String) (pos1 : Nat)
    (hEC : ensureContainers g parts fs used pos = some (fs1, used1, pos1))
    (k : String) (q : Nat)
    (hmint : nextGlobalLeafKey g used1 pos1 = some (k, q)) :
    addStringToBaseLanguage g fs pfx text pos =
      some (setDeepValue fs1 parts k text, pfx ++ "." ++ k) := by
  simp only [addStringToBaseLanguage, hp, hu, hEC, hmint]

/-- Witness for C3 on a concrete document with unrelated keys c and z. -/
theorem c3_demotion_preserves_data_witness :
    ∃ A2 pk lk,
      lookupField [("a", Doc.obj [("b", Doc.obj [("0000", Doc.str "old"), ("0001", Doc.str "new")]),
          ("c", Doc.str "keep")]), ("z", Doc.str "zz")] "a" = some (Doc.obj A2) ∧
      lookupField A2 "b" = some (Doc.obj [(pk, Doc.str "old"), (lk, Doc.str "new")]) ∧
      pk ≠ lk ∧ isFourDigit pk = true ∧ isFourDigit lk = true ∧
      (∀ q, q ≠ "a" →
        lookupField [("a", Doc.obj [("b", Doc.obj [("0000", Doc.str "old"), ("0001", Doc.str "new")]),
          ("c", Doc.str "keep")]), ("z", Doc.str "zz")] q =
        lookupField [("a", Doc.obj [("b", Doc.str "old"), ("c", Doc.str "keep")]), ("z", Doc.str "zz")] q) ∧
      (∀ q, q ≠ "b" →
        lookupField A2 q = lookupField [("b", Doc.str "old"), ("c", Doc.str "keep")] q) :=
  c3_demotion_preserves_data gW 0
    [("a", Doc.obj [("b", Doc.str "old"), ("c", Doc.str "keep")]), ("z", Doc.str "zz")]
    [("b", Doc.str "old"), ("c", Doc.str "keep")]
    [("a", Doc.obj [("b", Doc.obj [("0000", Doc.str "old"), ("0001", Doc.str "new")]),
      ("c", Doc.str "keep")]), ("z", Doc.str "zz")]
    "a.b.0001" rfl rfl
    (by
      have h : collectAllNumericLeafKeys
          [("a", Doc.obj [("b", Doc.str "old"), ("c", Doc.str "keep")]), ("z", Doc.str "zz")] = [] := by
        simp [collectAllNumericLeafKeys, show isFourDigit "b" = false from rfl,
          show isFourDigit "c" = false from rfl, show isFourDigit "z" = false from rfl]
      rw [addStringToBaseLanguage_eq gW _ "a.b" "new" 0 ["a", "b"] [] rfl h
        [("a", Doc.obj [("b", Doc.obj [("0000", Doc.str "old")]), ("c", Doc.str "keep")]),
          ("z", Doc.str "zz")]
        ["0000"] 1 rfl "0001" 2 rfl]
      rfl)

/-- Counterexample for C4: on the claimed document, resolving the key
path a lands on the object node after the literal descent and returns
not-found, because the numeric-leaf fallback only fires when the terminal
segment is absent from its node. -/
theorem c4_loose_lookup_counterexample :
    getValueByPathLoose [("a", Doc.obj [("1234", Doc.str "hello")])] "a" = none ∧
    getValueByPathLoose [("a", Doc.obj [("1234", Doc.str "hello")])] "a" ≠ some "hello" := by
  decide

/-- Claim C4 as amended: resolving a returns not-found; the loose
numeric-leaf fallback fires only for a terminal segment that is absent
from its node and is not itself a bare 4-digit code, as with a.x, while
an explicit absent 4-digit id such as a.9999 stays not-found. -/
theorem c4_loose_lookup_amended :
    getValueByPathLoose [("a", Doc.obj [("1234", Doc.str "hello")])] "a" = none ∧
    getValueByPathLoose [("a", Doc.obj [("1234", Doc.str "hello")])] "a.x" = some "hello" ∧
    getValueByPathLoose [("a", Doc.obj [("1234", Doc.str "hello")])] "a.9999" = none := by
  decide

/-- Counterexample for C5: the key path derived from
components/Header.vue keeps the original casing of the file name, so the
produced prefix is components.Header, not components.header. -/
theorem c5_key_path_counterexample :
    generateKeyPath "components/Header.vue" = some "components.Header" ∧
    ("components.Header" : String) ≠ "components.header" := by
  decide

/-- Claim C5 as amended: with the empty base document, the add-key
pipeline on text selected in components/Header.vue derives the prefix
components.Header (original casing kept), updates the document to nest
the text under components.Header.(4-digit id) and emits the
single-argument call expression on that path, for every random stream. -/
theorem c5_end_to_end_amended (g : Nat → Fin 10000) (pos : Nat) :
    generateKeyPath "components/Header.vue" = some "components.Header" ∧
    ∃ n, n < 10000 ∧
      addStringToBaseLanguage g [] "components.Header" "Welcome to our app" pos =
        some ([("components", Doc.obj [("Header",
          Doc.obj [(pad4 n, Doc.str "Welcome to our app")])])],
          "components.Header." ++ pad4 n) ∧
      isFourDigit (pad4 n) = true ∧
      generateTCallExpression ("components.Header." ++ pad4 n) [] [] =
        "t(" ++ sglq ++ "components.Header." ++ pad4 n ++ sglq ++ ")" := by
  refine ⟨rfl, (g pos).val, (g pos).isLt, ?_, isFourDigit_pad4 _, rfl⟩
  have hcoll : collectAllNumericLeafKeys [] = [] := by
    simp [collectAllNumericLeafKeys]
  have hEC : ensureContainers g ["components", "Header"] [] [] pos =
      some ([("components", Doc.obj [("Header", Doc.obj [])])], [], pos) := by
    simp [ensureContainers, lookupField, setField]
  have hmint : nextGlobalLeafKey g [] pos = some (pad4 (g pos).val, pos + 1) := by
    unfold nextGlobalLeafKey
    have hr : randomTries g [] pos 500 = some (pad4 (g pos).val, pos + 1) := by
      rw [show (500 : Nat) = 499 + 1 from rfl]
      simp [randomTries]
    rw [hr]
  rw [addStringToBaseLanguage_eq g [] "components.Header" "Welcome to our app" pos
    ["components", "Header"] [] rfl hcoll _ [] pos hEC _ _ hmint]
  rw [show ("components.Header" ++ "." : String) = "components.Header." from rfl]
  simp [setDeepValue, lookupField, setField]

/-- Claim C8: with a pre-existing base-language locale file whose content
fails to parse as JSON, the add-key command shows the error message and
stops: the returned state is exactly the input state, so neither the
locale file nor the source document is touched. -/
theorem c8_invalid_json_aborts (parse : String → Option (List (String × Doc)))
    (serialize : List (String × Doc) → String)
    (applyEdit : String → String → String)
    (g : Nat → Fin 10000) (pos : Nat)
    (relativePath selectedString : String)
    (params : List DynamicValueMatch) (originalParams : List (String × String))
    (st : EditorState)
    (hexists : st.baseFileExists = true)
    (hbad : parse (stripBOM st.baseFileContent) = none) :
    addI18nKeyCommand parse serialize applyEdit g pos relativePath selectedString
        params originalParams st =
      (st, some "Base language file has invalid JSON. Please fix it and try again. No changes were made.") := by
  simp [addI18nKeyCommand, hexists, hbad]

/-- Witness for C8 at a concrete state and an always-failing parse. -/
theorem c8_invalid_json_aborts_witness :
    addI18nKeyCommand (fun _ => none) (fun _ => "") (fun s _ => s) gW 0 "x/y.vue" "sel" [] []
        ⟨true, "notjson", "sourcetext"⟩ =
      (⟨true, "notjson", "sourcetext"⟩,
        some "Base language file has invalid JSON. Please fix it and try again. No changes were made.") :=
  c8_invalid_json_aborts (fun _ => none) (fun _ => "") (fun s _ => s) gW 0 "x/y.vue" "sel" [] []
    ⟨true, "notjson", "sourcetext"⟩ rfl rfl

theorem hashStep_lt (h c : Nat) (hc : c < 2 ^ 32) : hashStep h c < 2 ^ 32 := by
  have h1 : (h * 33) % 2 ^ 32 < 2 ^ 32 := Nat.mod_lt _ (by norm_num)
  exact Nat.xor_lt_two_pow h1 hc

theorem generateKeyHashNum_lt (codes : List Nat)
    (hcodes : ∀ u ∈ codes, u < 65536) : generateKeyHashNum codes < 2 ^ 32 := by
  have hgen : ∀ acc, acc < 2 ^ 32 → codes.foldl hashStep acc < 2 ^ 32 := by
    induction codes with
    | nil => intro acc hacc; exact hacc
    | cons c cs ih =>
      intro acc hacc
      have hc : c < 2 ^ 32 := lt_trans (hcodes c (by simp)) (by norm_num)
      exact (fun hcodes2 => ih hcodes2 _ (hashStep_lt acc c hc))
        (fun u hu => hcodes u (by simp [hu]))
  exact hgen 5381 (by norm_num)

theorem hexDigitChar_lowerHex (d : Nat) : isLowerHexDigit (hexDigitChar d) = true := by
  rcases d with _|_|_|_|_|_|_|_|_|_|_|_|_|_|_|d <;> rfl

theorem hexCharVal_hexDigitChar (d : Nat) (hd : d < 16) :
    hexCharVal (hexDigitChar d) = d := by
  interval_cases d <;> rfl

theorem hexChars_all_lowerHex (n : Nat) :
    (hexChars n).all isLowerHexDigit = true := by
  induction n using Nat.strong_induction_on with
  | _ n ih =>
    unfold hexChars
    by_cases h : n < 16
    · simp [h, hexDigitChar_lowerHex]
    · have hdiv : n / 16 < n := Nat.div_lt_self (by omega) (by omega)
      simp [h, List.all_append, ih _ hdiv, hexDigitChar_lowerHex]

theorem hexVal_append_digit (l : List Char) (c : Char) :
    hexVal (l ++ [c]) = 16 * hexVal l + hexCharVal c := by
  simp [hexVal, List.foldl_append]

theorem hexVal_hexChars (n : Nat) : hexVal (hexChars n) = n := by
  induction n using Nat.strong_induction_on with
  | _ n ih =>
    unfold hexChars
    by_cases h : n < 16
    · simp [h, hexVal, hexCharVal_hexDigitChar n h]
    · have hdiv : n / 16 < n := Nat.div_lt_self (by omega) (by omega)
      simp only [h, dite_false]
      rw [hexVal_append_digit, ih _ hdiv, hexCharVal_hexDigitChar _ (Nat.mod_lt _ (by omega))]
      omega

theorem hexChars_length_le (k : Nat) :
    ∀ n, n < 16 ^ k → 1 ≤ k → (hexChars n).length ≤ k := by
  induction k with
  | zero => intro n _ hk; omega
  | succ k ih =>
    intro n hn _
    unfold hexChars
    by_cases h : n < 16
    · simp [h]
    · have hk1 : 1 ≤ k := by
        by_contra hk0
        have : k = 0 := by omega
        subst this
        simp [pow_succ, pow_zero] at hn
        omega
      have hdivlt : n / 16 < 16 ^ k := by
        rw [Nat.div_lt_iff_lt_mul (by omega)]
        calc n < 16 ^ (k + 1) := hn
        _ = 16 ^ k * 16 := by ring
      simp only [h, dite_false, List.length_append, List.length_cons, List.length_nil]
      have := ih (n / 16) hdivlt hk1
      omega

theorem hexVal_pad_zeros (m : Nat) (l : List Char) :
    hexVal (List.replicate m '0' ++ l) = hexVal l := by
  induction m with
  | zero => simp
  | succ k ih =>
    rw [List.replicate_succ, List.cons_append]
    show hexVal (List.replicate k '0' ++ l) = hexVal l
    exact ih

/-- Claim C6: `generateKeyHash` is deterministic, and on every list of
UTF-16 code units it returns exactly eight lowercase hexadecimal digits
whose base-16 value is the 32-bit-truncated multiply-by-33 xor running
hash started at 5381 (which stays below `2 ^ 32` throughout). -/
theorem c6_generateKeyHash_spec (codes : List Nat)
    (hcodes : ∀ u ∈ codes, u < 65536) :
    (generateKeyHash codes).length = 8 ∧
    (generateKeyHash codes).data.all isLowerHexDigit = true ∧
    hexVal (generateKeyHash codes).data = generateKeyHashNum codes ∧
    generateKeyHashNum codes =
      codes.foldl (fun hash code => ((hash * 33) % 2 ^ 32) ^^^ code) 5381 ∧
    generateKeyHashNum codes < 2 ^ 32 ∧
    (∀ codes2, codes2 = codes → generateKeyHash codes2 = generateKeyHash codes) := by
  have hlt : generateKeyHashNum codes < 2 ^ 32 := generateKeyHashNum_lt codes hcodes
  have hlen8 : (hexChars (generateKeyHashNum codes)).length ≤ 8 :=
    hexChars_length_le 8 _ (by norm_num at hlt ⊢; omega) (by norm_num)
  refine ⟨?_, ?_, ?_, rfl, hlt, fun codes2 e => e ▸ rfl⟩
  · show (padStart8 (hexChars (generateKeyHashNum codes))).length = 8
    simp [padStart8]
    omega
  · show (padStart8 (hexChars (generateKeyHashNum codes))).all isLowerHexDigit = true
    simp only [padStart8, List.all_append, Bool.and_eq_true]
    constructor
    · rw [List.all_eq_true]
      intro c hc
      rw [List.eq_of_mem_replicate hc]
      rfl
    · exact hexChars_all_lowerHex _
  · show hexVal (padStart8 (hexChars (generateKeyHashNum codes))) = _
    rw [padStart8, hexVal_pad_zeros, hexVal_hexChars]

/-- Witness for C6 on the code units of the string Hi. -/
theorem c6_generateKeyHash_spec_witness :
    (generateKeyHash [72, 105]).length = 8 ∧
    (generateKeyHash [72, 105]).data.all isLowerHexDigit = true ∧
    hexVal (generateKeyHash [72, 105]).data = generateKeyHashNum [72, 105] ∧
    generateKeyHashNum [72, 105] =
      [72, 105].foldl (fun hash code => ((hash * 33) % 2 ^ 32) ^^^ code) 5381 ∧
    generateKeyHashNum [72, 105] < 2 ^ 32 ∧
    (∀ codes2, codes2 = [72, 105] → generateKeyHash codes2 = generateKeyHash [72, 105]) :=
  c6_generateKeyHash_spec [72, 105] (by decide)

set_option maxRecDepth 8000

/-- Counterexample for C7: the concatenation parser does detect the
concatenation and one number-kind parameter, but the parameter name is
the last identifier of the chain total.toFixed, so the normalized text is
Total: (toFixed placeholder), not Total: (total placeholder). -/
theorem c7_concat_counterexample :
    (parseStringConcatenation (sglq ++ "Total: " ++ sglq ++ " + total.toFixed(2)")).map
      (fun r => r.normalizedText) = some "Total: \x7btoFixed\x7d" ∧
    (parseStringConcatenation (sglq ++ "Total: " ++ sglq ++ " + total.toFixed(2)")).map
      (fun r => r.normalizedText) ≠ some "Total: \x7btotal\x7d" := by
  decide

/-- Claim C7 as amended: the selected text is detected as concatenation
with exactly one parameter whose kind tag is number, whose expression is
total.toFixed(2) and whose derived name is toFixed (the last identifier
of the chain), giving normalized text Total: followed by the toFixed
placeholder. -/
theorem c7_concat_amended :
    (parseStringConcatenation (sglq ++ "Total: " ++ sglq ++ " + total.toFixed(2)")).map
      (fun r => (r.normalizedText, r.params.map (fun p => (p.kind, p.paramName, p.expression)))) =
      some ("Total: \x7btoFixed\x7d", [("number", "toFixed", "total.toFixed(2)")]) := by
  decide
